import Mathlib

set_option linter.all false

/-!
Shallow embedding of the heath transaction-replay engine (src/account.rs, src/bank.rs,
src/ledger.rs, src/transaction.rs, src/transactions/*.rs).

Monetary values: the engine stores `rust_decimal::Decimal` values and every write path
rounds to 4 decimal places (`round_dp(4)`); the input format carries amounts with at
most 4 fractional digits, and every stored value is a sum or difference of such inputs,
so `round_dp(4)` is the identity on all values the engine ever holds.  We therefore
model amounts as `Int` in units of 10^-4 (e.g. `1.5` is `15000`), and the roundings
become the identity.  `normalize()` only changes the display form of a decimal, not its
value, so it is also the identity in this value-level model.

`std::collections::HashMap` is modelled as an association list with first-binding
lookup; `insert` replaces an existing binding, `remove` drops it, exactly the map
semantics the engine relies on (iteration order is irrelevant: the only place the map
is iterated, the snapshot, sorts by the unique client-id key).

The `assert!` calls in `Resolve::execute` and `ChargeBack::execute` abort the process;
the handlers are modelled with `Option`, `none` standing for the assertion failure
(panic).  `ClientId` (u16) and `TransactionId` (u32) are modelled as `Nat`: no claim
depends on their bit width and the engine performs no arithmetic on them.
-/

/-- HashMap lookup: first binding for the key. -/
def alGet {α : Type} (m : List (Nat × α)) (k : Nat) : Option α :=
  match m with
  | [] => none
  | (k2, v) :: rest => if k2 = k then some v else alGet rest k

/-- HashMap::insert: replace the binding if the key is present, else append it. -/
def alInsert {α : Type} (m : List (Nat × α)) (k : Nat) (v : α) : List (Nat × α) :=
  match m with
  | [] => [(k, v)]
  | (k2, v2) :: rest => if k2 = k then (k, v) :: rest else (k2, v2) :: alInsert rest k v

/-- HashMap::remove: drop the binding for the key if present. -/
def alRemove {α : Type} (m : List (Nat × α)) (k : Nat) : List (Nat × α) :=
  match m with
  | [] => []
  | (k2, v2) :: rest => if k2 = k then rest else (k2, v2) :: alRemove rest k

/-- Sum of the values of a held-funds map (the quantity the incrementally maintained
`held_funds_cache` is meant to track). -/
def heldSum (m : List (Nat × Int)) : Int := (m.map Prod.snd).sum

/-- Dispute state of a transaction (src/transaction.rs, `enum DisputeSate` -- the
source's spelling is kept). -/
inductive DisputeSate
  | Undisputed
  | Disputed (amount : Int)
  | Chargeback
deriving DecidableEq

/-- A parsed ledger record (src/transaction.rs, `enum TransactionLog`).
Deposit/Withdrawal carry an amount; the dispute family does not. -/
inductive TransactionLog
  | Deposit (client_id : Nat) (tx_id : Nat) (amount : Int)
  | Withdrawal (client_id : Nat) (tx_id : Nat) (amount : Int)
  | Dispute (client_id : Nat) (tx_id : Nat)
  | Resolve (client_id : Nat) (tx_id : Nat)
  | Chargeback (client_id : Nat) (tx_id : Nat)
deriving DecidableEq

/-- `TransactionInfo::client_id` for `TransactionLog`. -/
def TransactionLog.client_id : TransactionLog → Nat
  | .Deposit c _ _ => c
  | .Withdrawal c _ _ => c
  | .Dispute c _ => c
  | .Resolve c _ => c
  | .Chargeback c _ => c

/-- `TransactionInfo::transaction_id` for `TransactionLog`. -/
def TransactionLog.transaction_id : TransactionLog → Nat
  | .Deposit _ t _ => t
  | .Withdrawal _ t _ => t
  | .Dispute _ t => t
  | .Resolve _ t => t
  | .Chargeback _ t => t

/-- `TransactionInfo::amount` for `TransactionLog`. -/
def TransactionLog.amount : TransactionLog → Option Int
  | .Deposit _ _ a => some a
  | .Withdrawal _ _ a => some a
  | .Dispute _ _ => none
  | .Resolve _ _ => none
  | .Chargeback _ _ => none

/-- Per-client account state (src/account.rs, `struct Account`). -/
structure Account where
  client_id : Nat
  available_funds : Int
  held_funds : List (Nat × Int)
  completed_disputes : List (Nat × DisputeSate)
  held_funds_cache : Int
  locked : Bool
deriving DecidableEq

/-- `Account::new` (src/account.rs). -/
def Account.new (account_id : Nat) : Account :=
  { client_id := account_id, available_funds := 0, held_funds := [],
    completed_disputes := [], held_funds_cache := 0, locked := false }

/-- `AccountInfo::available_funds` (round_dp(4) is the identity in this model). -/
def AccountInfo.available_funds (a : Account) : Int := a.available_funds

/-- `AccountInfo::held_funds`: the incrementally maintained cache. -/
def AccountInfo.held_funds (a : Account) : Int := a.held_funds_cache

/-- `AccountInfo::total_funds`: computed, never stored, as held + available. -/
def AccountInfo.total_funds (a : Account) : Int :=
  AccountInfo.held_funds a + AccountInfo.available_funds a

/-- `AccountInfo::locked`. -/
def AccountInfo.locked (a : Account) : Bool := a.locked

/-- `AccountInfo::find_dispute` (src/account.rs): derived dispute state of a
transaction id. -/
def AccountInfo.find_dispute (a : Account) (transaction : Nat) : DisputeSate :=
  match alGet a.held_funds transaction with
  | some amount => .Disputed amount
  | none => (alGet a.completed_disputes transaction).getD .Undisputed

/-- `SetAccountInfo::set_available_funds`. -/
def Account.set_available_funds (a : Account) (amount : Int) : Account :=
  { a with available_funds := amount }

/-- `SetAccountInfo::add_held_funds`: insert into the held map and bump the cache. -/
def Account.add_held_funds (a : Account) (amount : Int) (disputer_id : Nat) : Account :=
  { a with held_funds := alInsert a.held_funds disputer_id amount,
           held_funds_cache := a.held_funds_cache + amount }

/-- `SetAccountInfo::remove_held_funds`: remove from the held map and decrement the
cache by the stored value; no-op if absent. -/
def Account.remove_held_funds (a : Account) (disputer_id : Nat) : Account :=
  match alGet a.held_funds disputer_id with
  | some d => { a with held_funds := alRemove a.held_funds disputer_id,
                       held_funds_cache := a.held_funds_cache - d }
  | none => a

/-- `SetAccountInfo::set_locked`. -/
def Account.set_locked (a : Account) (locked : Bool) : Account :=
  { a with locked := locked }

/-- `SetAccountInfo::complete_dispute`: only a `Chargeback` outcome is retained. -/
def Account.complete_dispute (a : Account) (disputer_id : Nat) (state : DisputeSate) :
    Account :=
  match state with
  | .Undisputed => a
  | .Disputed _ => a
  | .Chargeback =>
    { a with completed_disputes := alInsert a.completed_disputes disputer_id state }

/-- `Deposit::execute` (src/transactions/deposit.rs). -/
def Deposit.execute (account : Account) (amount : Int) : Account :=
  if AccountInfo.locked account then account
  else Account.set_available_funds account (AccountInfo.available_funds account + amount)

/-- `Withdrawal::execute` (src/transactions/withdrawal.rs). -/
def Withdrawal.execute (account : Account) (amount : Int) : Account :=
  if AccountInfo.locked account then account
  else if amount ≤ AccountInfo.available_funds account then
    Account.set_available_funds account (AccountInfo.available_funds account - amount)
  else account

/-- `Dispute::execute` (src/transactions/dispute.rs); `disputed_tx` is the backward
lookup result (none when the referenced transaction was not found). -/
def Dispute.execute (account : Account) (disputed_tx : Option TransactionLog) : Account :=
  match disputed_tx with
  | none => account
  | some d =>
    match AccountInfo.find_dispute account (TransactionLog.transaction_id d) with
    | .Undisputed =>
      match TransactionLog.amount d with
      | some amount =>
        if amount ≤ AccountInfo.available_funds account then
          Account.add_held_funds
            (Account.set_available_funds account
              (AccountInfo.available_funds account - amount))
            amount (TransactionLog.transaction_id d)
        else account
      | none => account
    | .Disputed _ => account
    | .Chargeback => account

/-- `Resolve::execute` (src/transactions/resolve.rs); `none` models the
`assert!(amount <= held)` panic. -/
def Resolve.execute (account : Account) (disputed_tx : Option TransactionLog) :
    Option Account :=
  match disputed_tx with
  | none => some account
  | some d =>
    match AccountInfo.find_dispute account (TransactionLog.transaction_id d) with
    | .Disputed amount =>
      if amount ≤ AccountInfo.held_funds account then
        some (Account.complete_dispute
          (Account.set_available_funds
            (Account.remove_held_funds account (TransactionLog.transaction_id d))
            (AccountInfo.available_funds account + amount))
          (TransactionLog.transaction_id d) .Undisputed)
      else none
    | .Undisputed => some account
    | .Chargeback => some account

/-- `ChargeBack::execute` (src/transactions/chargeback.rs); `none` models the
`assert!(amount <= held)` panic. -/
def ChargeBack.execute (account : Account) (disputed_tx : Option TransactionLog) :
    Option Account :=
  match disputed_tx with
  | none => some account
  | some d =>
    match AccountInfo.find_dispute account (TransactionLog.transaction_id d) with
    | .Disputed amount =>
      if amount ≤ AccountInfo.held_funds account then
        some (Account.set_locked
          (Account.complete_dispute
            (Account.remove_held_funds account (TransactionLog.transaction_id d))
            (TransactionLog.transaction_id d) .Chargeback)
          true)
      else none
    | .Undisputed => some account
    | .Chargeback => some account

/-- The bank: account table plus the (restartable) ledger (src/bank.rs).  The ledger
file is modelled as the list of parsed records; every `Ledger::iter()` re-reads it from
the start, which the list model gives by construction. -/
structure Bank where
  accounts : List (Nat × Account)
  ledger : List TransactionLog
deriving DecidableEq

/-- `Bank::account`: fetch the account, lazily creating a default one.  Returns the
updated table together with the account (the Arc-handle shared mutation of the Rust
code is rendered as read-here, write-back in `bankStore`). -/
def Bank.account (b : Bank) (account_id : Nat) : Bank × Account :=
  match alGet b.accounts account_id with
  | some a => (b, a)
  | none =>
    ({ b with accounts := alInsert b.accounts account_id (Account.new account_id) },
     Account.new account_id)

/-- `Bank::transaction`: backward lookup, scanning the ledger from the start, keeping
only the first `max_ledger_search` records, first match on (tx id, client id) wins. -/
def Bank.transaction (b : Bank) (max_ledger_search : Nat) (account_id : Nat)
    (transaction_id : Nat) : Option TransactionLog :=
  (b.ledger.take max_ledger_search).find?
    (fun t => TransactionLog.transaction_id t == transaction_id
      && account_id == TransactionLog.client_id t)

/-- Write an account back into the table (the in-place mutation through the
`Arc<Mutex<Account>>` handle of the Rust code). -/
def bankStore (b : Bank) (account_id : Nat) (a : Account) : Bank :=
  { b with accounts := alInsert b.accounts account_id a }

/-- `BankTransaction::execute` (src/transactions/mod.rs): resolve the account (created
lazily even when a later lookup fails), perform the backward lookup for the dispute
family, and dispatch to the handler. -/
def BankTransaction.execute (bank : Bank) (chronological_index : Nat)
    (t : TransactionLog) : Option Bank :=
  match t with
  | .Deposit cid _ amount =>
    some (bankStore (Bank.account bank cid).1 cid
      (Deposit.execute (Bank.account bank cid).2 amount))
  | .Withdrawal cid _ amount =>
    some (bankStore (Bank.account bank cid).1 cid
      (Withdrawal.execute (Bank.account bank cid).2 amount))
  | .Dispute cid tx =>
    some (bankStore (Bank.account bank cid).1 cid
      (Dispute.execute (Bank.account bank cid).2
        (Bank.transaction (Bank.account bank cid).1 chronological_index cid tx)))
  | .Resolve cid tx =>
    (Resolve.execute (Bank.account bank cid).2
        (Bank.transaction (Bank.account bank cid).1 chronological_index cid tx)).map
      (fun a => bankStore (Bank.account bank cid).1 cid a)
  | .Chargeback cid tx =>
    (ChargeBack.execute (Bank.account bank cid).2
        (Bank.transaction (Bank.account bank cid).1 chronological_index cid tx)).map
      (fun a => bankStore (Bank.account bank cid).1 cid a)

/-- The enumerated replay loop of `Bank::ordered_accounts_balance_buffer`: execute the
remaining records, `i` being the chronological index of the first of them; `none` when
a handler assertion fired (the `.unwrap()` panic). -/
def runFrom (b : Bank) (i : Nat) : List TransactionLog → Option Bank
  | [] => some b
  | t :: rest =>
    match BankTransaction.execute b i t with
    | none => none
    | some b2 => runFrom b2 (i + 1) rest

/-- One serialized output row (src/csv/account.rs, `struct AccountLog`). -/
structure AccountLog where
  client_id : Nat
  available_funds : Int
  held_funds : Int
  total_funds : Int
  locked : Bool
deriving DecidableEq

/-- `From<&Account> for AccountLog` (src/account.rs): `normalize()` and `round_dp(4)`
are the identity at the value level. -/
def Account.to_csv (a : Account) : AccountLog :=
  { client_id := a.client_id, available_funds := AccountInfo.available_funds a,
    held_funds := a.held_funds_cache, total_funds := AccountInfo.total_funds a,
    locked := a.locked }

/-- Insert a row into a row list sorted by client id. -/
def insertRow (r : AccountLog) : List AccountLog → List AccountLog
  | [] => [r]
  | x :: xs => if r.client_id ≤ x.client_id then r :: x :: xs else x :: insertRow r xs

/-- The `sorted_by(client_id)` of the snapshot emitter (keys are unique, so any
comparison sort yields this list). -/
def sortRows : List AccountLog → List AccountLog
  | [] => []
  | r :: rs => insertRow r (sortRows rs)

/-- `Bank::ordered_accounts_balance_buffer` (src/bank.rs): clear the account table,
replay the whole ledger in order, emit one row per account sorted ascending by client
id, clear the table again.  The output is modelled as the row list (the CSV rendering
of the rows is injective on them). -/
def Bank.ordered_accounts_balance_buffer (b : Bank) :
    Option (List AccountLog × Bank) :=
  match runFrom { b with accounts := [] } 0 b.ledger with
  | none => none
  | some b2 =>
    some (sortRows (b2.accounts.map (fun p => Account.to_csv p.2)),
      { b2 with accounts := [] })

/-- The bookkeeping invariant of an account: the incrementally maintained
`held_funds_cache` equals the sum of the held map's values, and every held value is
non-negative. -/
def Account.wf (a : Account) : Prop :=
  a.held_funds_cache = heldSum a.held_funds ∧ ∀ p ∈ a.held_funds, 0 ≤ p.2

/-- Every account of the table satisfies the bookkeeping invariant. -/
def Bank.wf (bk : Bank) : Prop := ∀ p ∈ bk.accounts, Account.wf p.2

/-- All amounts carried by the log's records are non-negative (`getD` renders the
absent amount of the dispute family as 0). -/
def NonNegLog (l : List TransactionLog) : Prop :=
  ∀ t ∈ l, 0 ≤ (TransactionLog.amount t).getD 0

instance (l : List TransactionLog) : Decidable (NonNegLog l) := by
  unfold NonNegLog
  infer_instance

/-- The account table has pairwise-distinct keys (as a `HashMap` does), and every
account is stored under its own client id. -/
def TableWf (bk : Bank) : Prop :=
  (bk.accounts.map Prod.fst).Nodup ∧ ∀ p ∈ bk.accounts, p.2.client_id = p.1

/-! ### Association-list lemmas -/

theorem alGet_insert_self {α : Type} (m : List (Nat × α)) (k : Nat) (v : α) :
    alGet (alInsert m k v) k = some v := by
  induction m with
  | nil => simp [alInsert, alGet]
  | cons p rest ih =>
    obtain ⟨k2, v2⟩ := p
    by_cases h : k2 = k
    · simp [alInsert, h, alGet]
    · simp [alInsert, h, alGet, ih]

theorem alGet_insert_ne {α : Type} (m : List (Nat × α)) (k q : Nat) (v : α)
    (h : q ≠ k) : alGet (alInsert m k v) q = alGet m q := by
  induction m with
  | nil => simp [alInsert, alGet, Ne.symm h]
  | cons p rest ih =>
    obtain ⟨k2, v2⟩ := p
    by_cases hk : k2 = k
    · subst hk
      simp [alInsert, alGet, Ne.symm h]
    · simp [alInsert, hk, alGet, ih]

theorem alRemove_insert {α : Type} (m : List (Nat × α)) (k : Nat) (v : α)
    (h : alGet m k = none) : alRemove (alInsert m k v) k = m := by
  induction m with
  | nil => simp [alInsert, alRemove]
  | cons p rest ih =>
    obtain ⟨k2, v2⟩ := p
    by_cases hk : k2 = k
    · simp [alGet, hk] at h
    · simp [alGet, hk] at h
      simp [alInsert, hk, alRemove, ih h]

theorem mem_alInsert {α : Type} (m : List (Nat × α)) (k : Nat) (v : α)
    (p : Nat × α) (h : p ∈ alInsert m k v) : p ∈ m ∨ p = (k, v) := by
  induction m with
  | nil => simpa [alInsert] using h
  | cons q rest ih =>
    obtain ⟨k2, v2⟩ := q
    by_cases hk : k2 = k
    · simp [alInsert, hk] at h
      rcases h with h | h
      · exact Or.inr (by simp [h])
      · exact Or.inl (List.mem_cons_of_mem _ h)
    · simp [alInsert, hk] at h
      rcases h with h | h
      · exact Or.inl (by simp [h])
      · rcases ih h with h2 | h2
        · exact Or.inl (List.mem_cons_of_mem _ h2)
        · exact Or.inr h2

theorem mem_alRemove {α : Type} (m : List (Nat × α)) (k : Nat)
    (p : Nat × α) (h : p ∈ alRemove m k) : p ∈ m := by
  induction m with
  | nil => simpa [alRemove] using h
  | cons q rest ih =>
    obtain ⟨k2, v2⟩ := q
    by_cases hk : k2 = k
    · simp [alRemove, hk] at h
      exact List.mem_cons_of_mem _ h
    · simp [alRemove, hk] at h
      rw [List.mem_cons]
      rcases h with h | h
      · exact Or.inl h
      · exact Or.inr (ih h)

theorem alGet_mem {α : Type} (m : List (Nat × α)) (k : Nat) (v : α)
    (h : alGet m k = some v) : (k, v) ∈ m := by
  induction m with
  | nil => simp [alGet] at h
  | cons q rest ih =>
    obtain ⟨k2, v2⟩ := q
    by_cases hk : k2 = k
    · simp [alGet, hk] at h
      simp [hk, h]
    · simp [alGet, hk] at h
      exact List.mem_cons_of_mem _ (ih h)

theorem heldSum_nonneg (m : List (Nat × Int)) (h : ∀ p ∈ m, 0 ≤ p.2) :
    0 ≤ heldSum m := by
  refine List.sum_nonneg ?_
  intro x hx
  rcases List.mem_map.mp hx with ⟨p, hp, rfl⟩
  exact h p hp

theorem heldSum_insert (m : List (Nat × Int)) (k : Nat) (v : Int)
    (h : alGet m k = none) : heldSum (alInsert m k v) = heldSum m + v := by
  induction m with
  | nil => simp [alInsert, heldSum]
  | cons q rest ih =>
    obtain ⟨k2, v2⟩ := q
    by_cases hk : k2 = k
    · simp [alGet, hk] at h
    · simp [alGet, hk] at h
      simp [alInsert, hk, heldSum] at ih ⊢
      rw [ih h]
      ring

theorem heldSum_remove (m : List (Nat × Int)) (k : Nat) (v : Int)
    (h : alGet m k = some v) : heldSum (alRemove m k) = heldSum m - v := by
  induction m with
  | nil => simp [alGet] at h
  | cons q rest ih =>
    obtain ⟨k2, v2⟩ := q
    by_cases hk : k2 = k
    · simp [alGet, hk] at h
      simp [alRemove, hk, heldSum, h]
    · simp [alGet, hk] at h
      simp [alRemove, hk, heldSum] at ih ⊢
      rw [ih h]
      ring

/-! ### Indexed characterization of `List.find?` over a prefix -/

theorem take_get? {α : Type} : ∀ (n m : Nat) (l : List α),
    (l.take n).get? m = if m < n then l.get? m else none := by
  intro n
  induction n with
  | zero => intro m l; simp
  | succ n ih =>
    intro m l
    cases l with
    | nil => simp
    | cons a l =>
      cases m with
      | zero => simp [List.take]
      | succ m => simpa [List.take, Nat.succ_lt_succ_iff] using ih m l

theorem find?_eq_some_first {α : Type} (p : α → Bool) :
    ∀ (l : List α) (r : α),
      l.find? p = some r ↔
        (p r = true ∧ ∃ j, l.get? j = some r ∧
          ∀ k, k < j → ∀ x, l.get? k = some x → p x = false) := by
  intro l
  induction l with
  | nil => intro r; simp
  | cons a l ih =>
    intro r
    cases hpa : p a with
    | true =>
      rw [List.find?_cons_of_pos _ hpa]
      constructor
      · intro h
        obtain rfl : a = r := Option.some.inj h
        exact ⟨hpa, 0, rfl, fun k hk x hx => absurd hk (Nat.not_lt_zero k)⟩
      · rintro ⟨hpr, j, hj, hmin⟩
        cases j with
        | zero =>
          have : a = r := Option.some.inj hj
          rw [this]
        | succ j =>
          have : p a = false := hmin 0 (Nat.succ_pos j) a rfl
          rw [hpa] at this
          cases this
    | false =>
      rw [List.find?_cons_of_neg _ (by simp [hpa])]
      rw [ih r]
      constructor
      · rintro ⟨hpr, j, hj, hmin⟩
        refine ⟨hpr, j + 1, by simpa using hj, ?_⟩
        intro k hk x hx
        cases k with
        | zero =>
          have : a = x := Option.some.inj hx
          rw [← this]
          exact hpa
        | succ k =>
          exact hmin k (Nat.lt_of_succ_lt_succ hk) x (by simpa using hx)
      · rintro ⟨hpr, j, hj, hmin⟩
        cases j with
        | zero =>
          have : a = r := Option.some.inj hj
          rw [← this] at hpr
          rw [hpr] at hpa
          cases hpa
        | succ j =>
          refine ⟨hpr, j, by simpa using hj, ?_⟩
          intro k hk x hx
          exact hmin (k + 1) (Nat.succ_lt_succ hk) x (by simpa using hx)

theorem Bank.transaction_eq_some_iff (b : Bank) (i cid tx : Nat) (r : TransactionLog) :
    Bank.transaction b i cid tx = some r ↔
      (TransactionLog.transaction_id r = tx ∧ TransactionLog.client_id r = cid ∧
        ∃ j, j < i ∧ b.ledger.get? j = some r ∧
          ∀ k, k < j → ∀ s, b.ledger.get? k = some s →
            ¬(TransactionLog.transaction_id s = tx ∧ TransactionLog.client_id s = cid)) := by
  unfold Bank.transaction
  rw [find?_eq_some_first]
  constructor
  · rintro ⟨hpr, j, hj, hmin⟩
    have hpr2 : TransactionLog.transaction_id r = tx ∧ cid = TransactionLog.client_id r := by
      simpa [Bool.and_eq_true, beq_iff_eq] using hpr
    rw [take_get?] at hj
    by_cases hji : j < i
    · rw [if_pos hji] at hj
      refine ⟨hpr2.1, hpr2.2.symm, j, hji, hj, ?_⟩
      intro k hk s hs hmatch
      have hks := hmin k hk s (by rw [take_get?, if_pos (Nat.lt_trans hk hji)]; exact hs)
      rw [hmatch.1, hmatch.2] at hks
      simp at hks
    · rw [if_neg hji] at hj
      cases hj
  · rintro ⟨h1, h2, j, hji, hj, hmin⟩
    refine ⟨by simp [h1, h2], j, by rw [take_get?, if_pos hji]; exact hj, ?_⟩
    intro k hk x hx
    rw [take_get?] at hx
    by_cases hki : k < i
    · rw [if_pos hki] at hx
      have hnm := hmin k hk x hx
      cases hcb : (TransactionLog.transaction_id x == tx
          && cid == TransactionLog.client_id x) with
      | false => rfl
      | true =>
        rw [Bool.and_eq_true, beq_iff_eq, beq_iff_eq] at hcb
        exact absurd ⟨hcb.1, hcb.2.symm⟩ hnm
    · rw [if_neg hki] at hx
      cases hx

theorem Bank.transaction_eq_none_iff (b : Bank) (i cid tx : Nat) :
    Bank.transaction b i cid tx = none ↔
      ∀ j, j < i → ∀ s, b.ledger.get? j = some s →
        ¬(TransactionLog.transaction_id s = tx ∧ TransactionLog.client_id s = cid) := by
  unfold Bank.transaction
  rw [List.find?_eq_none]
  constructor
  · intro h j hji s hs hmatch
    have hmem : s ∈ b.ledger.take i :=
      List.mem_iff_get?.mpr ⟨j, by rw [take_get?, if_pos hji]; exact hs⟩
    have := h s hmem
    rw [hmatch.1, hmatch.2] at this
    simp at this
  · intro h x hmem
    rcases List.mem_iff_get?.mp hmem with ⟨j, hj⟩
    rw [take_get?] at hj
    by_cases hji : j < i
    · rw [if_pos hji] at hj
      have hnm := h j hji x hj
      simp only [Bool.and_eq_true, beq_iff_eq, not_and_or]
      rw [not_and_or] at hnm
      rcases hnm with hnm | hnm
      · exact Or.inl hnm
      · exact Or.inr (fun e => hnm e.symm)
    · rw [if_neg hji] at hj
      cases hj

/-- Claim C2: for a dispute-family record at chronological index `i`, the coordinator
backward lookup `Bank::transaction` re-scans the ledger from the start, considers
exactly the first `i` records (the current record and everything after excluded), and
returns the first record whose transaction id and client id both match, regardless of
that record's kind; if no record of the prefix matches (in particular when the
transaction id belongs to another client), the handler receives none. -/
theorem heath_C2 (b : Bank) (i : Nat) (cid tx : Nat) :
    (∀ r, Bank.transaction b i cid tx = some r ↔
      (TransactionLog.transaction_id r = tx ∧ TransactionLog.client_id r = cid ∧
        ∃ j, j < i ∧ b.ledger.get? j = some r ∧
          ∀ k, k < j → ∀ s, b.ledger.get? k = some s →
            ¬(TransactionLog.transaction_id s = tx ∧ TransactionLog.client_id s = cid)))
    ∧ (Bank.transaction b i cid tx = none ↔
        ∀ j, j < i → ∀ s, b.ledger.get? j = some s →
          ¬(TransactionLog.transaction_id s = tx ∧ TransactionLog.client_id s = cid))
    ∧ (∀ j, BankTransaction.execute b i (.Dispute cid tx) = some j ↔
        some (bankStore (Bank.account b cid).1 cid
          (Dispute.execute (Bank.account b cid).2 (Bank.transaction (Bank.account b cid).1 i cid tx)))
        = some j) := by
  refine ⟨fun r => Bank.transaction_eq_some_iff b i cid tx r,
    Bank.transaction_eq_none_iff b i cid tx, fun j => Iff.rfl⟩

/-- From a derived `Undisputed` state, the transaction id is absent from the held map. -/
theorem find_dispute_undisputed_get (a : Account) (tx : Nat)
    (h : AccountInfo.find_dispute a tx = .Undisputed) : alGet a.held_funds tx = none := by
  unfold AccountInfo.find_dispute at h
  cases hg : alGet a.held_funds tx with
  | some v => rw [hg] at h; cases h
  | none => rfl

/-- Claim C7: in every non-fatal case -- withdrawal with insufficient available funds,
deposit or withdrawal on a locked account, Resolve or Chargeback whose referenced
transaction is `Undisputed` -- the handler returns success and leaves the account
entirely unchanged (replay then proceeds with the next record, `runFrom` recursing on
the returned bank). -/
theorem heath_C7 :
    (∀ (a : Account) (amount : Int), AccountInfo.locked a = false →
      AccountInfo.available_funds a < amount → Withdrawal.execute a amount = a)
    ∧ (∀ (a : Account) (amount : Int), AccountInfo.locked a = true →
      Deposit.execute a amount = a)
    ∧ (∀ (a : Account) (amount : Int), AccountInfo.locked a = true →
      Withdrawal.execute a amount = a)
    ∧ (∀ (a : Account) (t : TransactionLog),
      AccountInfo.find_dispute a (TransactionLog.transaction_id t) = .Undisputed →
      Resolve.execute a (some t) = some a)
    ∧ (∀ (a : Account) (t : TransactionLog),
      AccountInfo.find_dispute a (TransactionLog.transaction_id t) = .Undisputed →
      ChargeBack.execute a (some t) = some a) := by
  refine ⟨?_, ?_, ?_, ?_, ?_⟩
  · intro a amount hl hav
    simp [Withdrawal.execute, hl, not_le.mpr hav]
  · intro a amount hl
    simp [Deposit.execute, hl]
  · intro a amount hl
    simp [Withdrawal.execute, hl]
  · intro a t h
    simp [Resolve.execute, h]
  · intro a t h
    simp [ChargeBack.execute, h]

theorem heath_C7_witness :
    Withdrawal.execute (Account.mk 1 5000 [] [] 0 false) 10000
      = Account.mk 1 5000 [] [] 0 false
    ∧ Deposit.execute (Account.mk 1 5000 [] [] 0 true) 100
      = Account.mk 1 5000 [] [] 0 true
    ∧ Withdrawal.execute (Account.mk 1 5000 [] [] 0 true) 100
      = Account.mk 1 5000 [] [] 0 true
    ∧ Resolve.execute (Account.mk 1 5000 [] [] 0 false) (some (.Resolve 1 9))
      = some (Account.mk 1 5000 [] [] 0 false)
    ∧ ChargeBack.execute (Account.mk 1 5000 [] [] 0 false) (some (.Chargeback 1 9))
      = some (Account.mk 1 5000 [] [] 0 false) :=
  ⟨heath_C7.1 (Account.mk 1 5000 [] [] 0 false) 10000 (by decide) (by decide),
   heath_C7.2.1 (Account.mk 1 5000 [] [] 0 true) 100 (by decide),
   heath_C7.2.2.1 (Account.mk 1 5000 [] [] 0 true) 100 (by decide),
   heath_C7.2.2.2.1 (Account.mk 1 5000 [] [] 0 false) (.Resolve 1 9) (by decide),
   heath_C7.2.2.2.2 (Account.mk 1 5000 [] [] 0 false) (.Chargeback 1 9) (by decide)⟩

/-- Claim C10: no handler validates the sign of an amount.  A deposit of a negative
amount on an unlocked account decreases available funds (which may go negative); a
dispute of an original transaction with a negative amount passes the available-funds
check whenever available funds are non-negative, and inserts the negative amount into
the held map. -/
theorem heath_C10 :
    (∀ (a : Account) (amount : Int), AccountInfo.locked a = false → amount < 0 →
      AccountInfo.available_funds (Deposit.execute a amount)
          = AccountInfo.available_funds a + amount
        ∧ AccountInfo.available_funds (Deposit.execute a amount)
          < AccountInfo.available_funds a)
    ∧ (∀ (a : Account) (t : TransactionLog) (amount : Int),
      TransactionLog.amount t = some amount → amount < 0 →
      0 ≤ AccountInfo.available_funds a →
      AccountInfo.find_dispute a (TransactionLog.transaction_id t) = .Undisputed →
      amount ≤ AccountInfo.available_funds a
        ∧ alGet (Dispute.execute a (some t)).held_funds (TransactionLog.transaction_id t)
          = some amount
        ∧ (Dispute.execute a (some t)).held_funds_cache = a.held_funds_cache + amount) := by
  constructor
  · intro a amount hl hneg
    constructor
    · simp [Deposit.execute, hl, Account.set_available_funds, AccountInfo.available_funds]
    · simp only [Deposit.execute, hl, Bool.false_eq_true, if_false,
        Account.set_available_funds, AccountInfo.available_funds]
      omega
  · intro a t amount hamt hneg hpos hfd
    have hle : amount ≤ AccountInfo.available_funds a := le_trans (le_of_lt hneg) hpos
    refine ⟨hle, ?_, ?_⟩
    · simp [Dispute.execute, hfd, hamt, hle, Account.add_held_funds,
        Account.set_available_funds, alGet_insert_self]
    · simp [Dispute.execute, hfd, hamt, hle, Account.add_held_funds,
        Account.set_available_funds]

theorem heath_C10_witness :
    (AccountInfo.available_funds
        (Deposit.execute (Account.mk 1 0 [] [] 0 false) (-1000)) = 0 + -1000
      ∧ AccountInfo.available_funds
        (Deposit.execute (Account.mk 1 0 [] [] 0 false) (-1000))
        < AccountInfo.available_funds (Account.mk 1 0 [] [] 0 false))
    ∧ ((-1000 : Int) ≤ AccountInfo.available_funds (Account.mk 1 0 [] [] 0 false)
      ∧ alGet (Dispute.execute (Account.mk 1 0 [] [] 0 false)
          (some (.Deposit 1 5 (-1000)))).held_funds 5 = some (-1000)
      ∧ (Dispute.execute (Account.mk 1 0 [] [] 0 false)
          (some (.Deposit 1 5 (-1000)))).held_funds_cache = 0 + -1000) :=
  ⟨heath_C10.1 (Account.mk 1 0 [] [] 0 false) (-1000) (by decide) (by decide),
   heath_C10.2 (Account.mk 1 0 [] [] 0 false) (.Deposit 1 5 (-1000)) (-1000)
     (by decide) (by decide) (by decide) (by decide)⟩

/-- Claim C4: Dispute then Resolve then Dispute on the same original transaction.
After a successful dispute of `t` (state `Undisputed`, amount present, available funds
sufficient) and a resolve that returned successfully, the transaction is again found
`Undisputed`, available funds are restored, the held map is restored, and a second
dispute moves the amount from available to held once more -- because Resolve removed
the held entry and `complete_dispute` retains nothing for the `Undisputed` outcome. -/
theorem heath_C4 (a : Account) (t : TransactionLog) (amount : Int) (a2 : Account)
    (hamt : TransactionLog.amount t = some amount)
    (hfd : AccountInfo.find_dispute a (TransactionLog.transaction_id t) = .Undisputed)
    (hav : amount ≤ AccountInfo.available_funds a)
    (hres : Resolve.execute (Dispute.execute a (some t)) (some t) = some a2) :
    AccountInfo.find_dispute a2 (TransactionLog.transaction_id t) = .Undisputed
    ∧ AccountInfo.available_funds a2 = AccountInfo.available_funds a
    ∧ a2.held_funds = a.held_funds
    ∧ alGet (Dispute.execute a2 (some t)).held_funds (TransactionLog.transaction_id t)
      = some amount
    ∧ AccountInfo.held_funds (Dispute.execute a2 (some t))
      = AccountInfo.held_funds a2 + amount
    ∧ AccountInfo.available_funds (Dispute.execute a2 (some t))
      = AccountInfo.available_funds a2 - amount := by
  have hav3 : amount ≤ a.available_funds := hav
  have hheld := find_dispute_undisputed_get a (TransactionLog.transaction_id t) hfd
  have hcd : (alGet a.completed_disputes (TransactionLog.transaction_id t)).getD
      DisputeSate.Undisputed = DisputeSate.Undisputed := by
    unfold AccountInfo.find_dispute at hfd
    rw [hheld] at hfd
    exact hfd
  have ha1 : Dispute.execute a (some t)
      = { a with
          available_funds := a.available_funds - amount,
          held_funds := alInsert a.held_funds (TransactionLog.transaction_id t) amount,
          held_funds_cache := a.held_funds_cache + amount } := by
    simp only [Dispute.execute, hfd, hamt, Account.set_available_funds,
      Account.add_held_funds, AccountInfo.available_funds]
    rw [if_pos hav3]
  rw [ha1] at hres
  have hfd1 : AccountInfo.find_dispute
      { a with
        available_funds := a.available_funds - amount,
        held_funds := alInsert a.held_funds (TransactionLog.transaction_id t) amount,
        held_funds_cache := a.held_funds_cache + amount }
      (TransactionLog.transaction_id t) = DisputeSate.Disputed amount := by
    simp only [AccountInfo.find_dispute, alGet_insert_self]
  simp only [Resolve.execute, hfd1, AccountInfo.held_funds] at hres
  split at hres
  case isFalse => cases hres
  case isTrue hcond =>
    have hX := Option.some.inj hres
    have ha2 : a2 = { a with
        available_funds := a.available_funds - amount + amount,
        held_funds := a.held_funds,
        held_funds_cache := a.held_funds_cache + amount - amount } := by
      rw [← hX]
      simp only [Account.remove_held_funds, alGet_insert_self,
        Account.set_available_funds, Account.complete_dispute,
        AccountInfo.available_funds]
      rw [alRemove_insert _ _ _ hheld]
    subst ha2
    have hfdrec : AccountInfo.find_dispute
        { a with
          available_funds := a.available_funds - amount + amount,
          held_funds := a.held_funds,
          held_funds_cache := a.held_funds_cache + amount - amount }
        (TransactionLog.transaction_id t) = DisputeSate.Undisputed := by
      simp [AccountInfo.find_dispute, hheld, hcd]
    have hav2 : amount ≤ a.available_funds - amount + amount := by omega
    refine ⟨hfdrec, ?_, rfl, ?_, ?_, ?_⟩
    · show a.available_funds - amount + amount = a.available_funds
      omega
    · simp only [Dispute.execute, hfdrec, hamt, Account.add_held_funds,
        Account.set_available_funds, AccountInfo.available_funds]
      rw [if_pos hav2]
      exact alGet_insert_self _ _ _
    · simp only [Dispute.execute, hfdrec, hamt, Account.add_held_funds,
        Account.set_available_funds, AccountInfo.available_funds,
        AccountInfo.held_funds]
      rw [if_pos hav2]
    · simp only [Dispute.execute, hfdrec, hamt, Account.add_held_funds,
        Account.set_available_funds, AccountInfo.available_funds]
      rw [if_pos hav2]

theorem heath_C4_witness :
    AccountInfo.find_dispute (Account.mk 1 100000 [] [] 0 false) 7 = .Undisputed
    ∧ AccountInfo.available_funds (Account.mk 1 100000 [] [] 0 false)
      = AccountInfo.available_funds (Account.mk 1 100000 [] [] 0 false)
    ∧ (Account.mk 1 100000 [] [] 0 false).held_funds
      = (Account.mk 1 100000 [] [] 0 false).held_funds
    ∧ alGet (Dispute.execute (Account.mk 1 100000 [] [] 0 false)
        (some (.Deposit 1 7 30000))).held_funds 7 = some 30000
    ∧ AccountInfo.held_funds (Dispute.execute (Account.mk 1 100000 [] [] 0 false)
        (some (.Deposit 1 7 30000)))
      = AccountInfo.held_funds (Account.mk 1 100000 [] [] 0 false) + 30000
    ∧ AccountInfo.available_funds (Dispute.execute (Account.mk 1 100000 [] [] 0 false)
        (some (.Deposit 1 7 30000)))
      = AccountInfo.available_funds (Account.mk 1 100000 [] [] 0 false) - 30000 :=
  heath_C4 (Account.mk 1 100000 [] [] 0 false) (.Deposit 1 7 30000) 30000
    (Account.mk 1 100000 [] [] 0 false) (by decide) (by decide) (by decide) (by decide)

/-- Claim C5: Dispute then successful Chargeback then Dispute on the same transaction
id.  After the chargeback, the derived state of the transaction id is `Chargeback`, the
account is locked, and a subsequent dispute of that id returns the account completely
unchanged (every field equal). -/
theorem heath_C5 (a : Account) (t : TransactionLog) (amount : Int) (a2 : Account)
    (hamt : TransactionLog.amount t = some amount)
    (hfd : AccountInfo.find_dispute a (TransactionLog.transaction_id t) = .Undisputed)
    (hav : amount ≤ AccountInfo.available_funds a)
    (hcb : ChargeBack.execute (Dispute.execute a (some t)) (some t) = some a2) :
    Dispute.execute a2 (some t) = a2
    ∧ AccountInfo.find_dispute a2 (TransactionLog.transaction_id t) = .Chargeback
    ∧ AccountInfo.locked a2 = true := by
  have hav3 : amount ≤ a.available_funds := hav
  have hheld := find_dispute_undisputed_get a (TransactionLog.transaction_id t) hfd
  have ha1 : Dispute.execute a (some t)
      = { a with
          available_funds := a.available_funds - amount,
          held_funds := alInsert a.held_funds (TransactionLog.transaction_id t) amount,
          held_funds_cache := a.held_funds_cache + amount } := by
    simp only [Dispute.execute, hfd, hamt, Account.set_available_funds,
      Account.add_held_funds, AccountInfo.available_funds]
    rw [if_pos hav3]
  rw [ha1] at hcb
  have hfd1 : AccountInfo.find_dispute
      { a with
        available_funds := a.available_funds - amount,
        held_funds := alInsert a.held_funds (TransactionLog.transaction_id t) amount,
        held_funds_cache := a.held_funds_cache + amount }
      (TransactionLog.transaction_id t) = DisputeSate.Disputed amount := by
    simp only [AccountInfo.find_dispute, alGet_insert_self]
  simp only [ChargeBack.execute, hfd1, AccountInfo.held_funds] at hcb
  split at hcb
  case isFalse => cases hcb
  case isTrue hcond =>
    have hX := Option.some.inj hcb
    have ha2 : a2 = { a with
        available_funds := a.available_funds - amount,
        held_funds := a.held_funds,
        completed_disputes := alInsert a.completed_disputes
          (TransactionLog.transaction_id t) DisputeSate.Chargeback,
        held_funds_cache := a.held_funds_cache + amount - amount,
        locked := true } := by
      rw [← hX]
      simp only [Account.remove_held_funds, alGet_insert_self,
        Account.complete_dispute, Account.set_locked]
      rw [alRemove_insert _ _ _ hheld]
    subst ha2
    have hfdrec : AccountInfo.find_dispute
        { a with
          available_funds := a.available_funds - amount,
          held_funds := a.held_funds,
          completed_disputes := alInsert a.completed_disputes
            (TransactionLog.transaction_id t) DisputeSate.Chargeback,
          held_funds_cache := a.held_funds_cache + amount - amount,
          locked := true }
        (TransactionLog.transaction_id t) = DisputeSate.Chargeback := by
      simp [AccountInfo.find_dispute, hheld, alGet_insert_self]
    refine ⟨?_, hfdrec, rfl⟩
    simp only [Dispute.execute]
    rw [hfdrec]

theorem heath_C5_witness :
    Dispute.execute
        (Account.mk 1 70000 [] [(7, DisputeSate.Chargeback)] 0 true)
        (some (.Deposit 1 7 30000))
      = Account.mk 1 70000 [] [(7, DisputeSate.Chargeback)] 0 true
    ∧ AccountInfo.find_dispute
        (Account.mk 1 70000 [] [(7, DisputeSate.Chargeback)] 0 true) 7 = .Chargeback
    ∧ AccountInfo.locked
        (Account.mk 1 70000 [] [(7, DisputeSate.Chargeback)] 0 true) = true :=
  heath_C5 (Account.mk 1 100000 [] [] 0 false) (.Deposit 1 7 30000) 30000
    (Account.mk 1 70000 [] [(7, DisputeSate.Chargeback)] 0 true)
    (by decide) (by decide) (by decide) (by decide)

/-! ### Field-preservation lemmas for the account operations and handlers -/

theorem Account.remove_held_funds_locked (a : Account) (k : Nat) :
    (Account.remove_held_funds a k).locked = a.locked := by
  unfold Account.remove_held_funds
  cases alGet a.held_funds k <;> rfl

theorem Account.remove_held_funds_client (a : Account) (k : Nat) :
    (Account.remove_held_funds a k).client_id = a.client_id := by
  unfold Account.remove_held_funds
  cases alGet a.held_funds k <;> rfl

theorem Account.complete_dispute_locked (a : Account) (k : Nat) (s : DisputeSate) :
    (Account.complete_dispute a k s).locked = a.locked := by
  unfold Account.complete_dispute
  cases s <;> rfl

theorem Account.complete_dispute_client (a : Account) (k : Nat) (s : DisputeSate) :
    (Account.complete_dispute a k s).client_id = a.client_id := by
  unfold Account.complete_dispute
  cases s <;> rfl

theorem deposit_locked_eq (a : Account) (amt : Int) :
    (Deposit.execute a amt).locked = a.locked := by
  unfold Deposit.execute
  split <;> rfl

theorem deposit_client_eq (a : Account) (amt : Int) :
    (Deposit.execute a amt).client_id = a.client_id := by
  unfold Deposit.execute
  split <;> rfl

theorem withdrawal_locked_eq (a : Account) (amt : Int) :
    (Withdrawal.execute a amt).locked = a.locked := by
  unfold Withdrawal.execute
  split
  · rfl
  · split <;> rfl

theorem withdrawal_client_eq (a : Account) (amt : Int) :
    (Withdrawal.execute a amt).client_id = a.client_id := by
  unfold Withdrawal.execute
  split
  · rfl
  · split <;> rfl

theorem dispute_locked_eq (a : Account) (d : Option TransactionLog) :
    (Dispute.execute a d).locked = a.locked := by
  cases d with
  | none => rfl
  | some dt =>
    cases hfd : AccountInfo.find_dispute a (TransactionLog.transaction_id dt) with
    | Disputed v => simp only [Dispute.execute, hfd]
    | Chargeback => simp only [Dispute.execute, hfd]
    | Undisputed =>
      cases hamt : TransactionLog.amount dt with
      | none => simp only [Dispute.execute, hfd, hamt]
      | some amt =>
        simp only [Dispute.execute, hfd, hamt]
        by_cases hc : amt ≤ AccountInfo.available_funds a
        · rw [if_pos hc]
          rfl
        · rw [if_neg hc]

theorem dispute_client_eq (a : Account) (d : Option TransactionLog) :
    (Dispute.execute a d).client_id = a.client_id := by
  cases d with
  | none => rfl
  | some dt =>
    cases hfd : AccountInfo.find_dispute a (TransactionLog.transaction_id dt) with
    | Disputed v => simp only [Dispute.execute, hfd]
    | Chargeback => simp only [Dispute.execute, hfd]
    | Undisputed =>
      cases hamt : TransactionLog.amount dt with
      | none => simp only [Dispute.execute, hfd, hamt]
      | some amt =>
        simp only [Dispute.execute, hfd, hamt]
        by_cases hc : amt ≤ AccountInfo.available_funds a
        · rw [if_pos hc]
          rfl
        · rw [if_neg hc]

theorem resolve_locked_eq (a : Account) (d : Option TransactionLog) (a2 : Account)
    (h : Resolve.execute a d = some a2) : a2.locked = a.locked := by
  cases d with
  | none =>
    cases Option.some.inj h
    rfl
  | some dt =>
    cases hfd : AccountInfo.find_dispute a (TransactionLog.transaction_id dt) with
    | Undisputed =>
      simp only [Resolve.execute, hfd] at h
      cases Option.some.inj h
      rfl
    | Chargeback =>
      simp only [Resolve.execute, hfd] at h
      cases Option.some.inj h
      rfl
    | Disputed amt =>
      simp only [Resolve.execute, hfd] at h
      split at h
      case isFalse => cases h
      case isTrue hc =>
        cases Option.some.inj h
        rw [Account.complete_dispute_locked]
        show (Account.remove_held_funds a (TransactionLog.transaction_id dt)).locked
          = a.locked
        rw [Account.remove_held_funds_locked]

theorem resolve_client_eq (a : Account) (d : Option TransactionLog) (a2 : Account)
    (h : Resolve.execute a d = some a2) : a2.client_id = a.client_id := by
  cases d with
  | none =>
    cases Option.some.inj h
    rfl
  | some dt =>
    cases hfd : AccountInfo.find_dispute a (TransactionLog.transaction_id dt) with
    | Undisputed =>
      simp only [Resolve.execute, hfd] at h
      cases Option.some.inj h
      rfl
    | Chargeback =>
      simp only [Resolve.execute, hfd] at h
      cases Option.some.inj h
      rfl
    | Disputed amt =>
      simp only [Resolve.execute, hfd] at h
      split at h
      case isFalse => cases h
      case isTrue hc =>
        cases Option.some.inj h
        rw [Account.complete_dispute_client]
        show (Account.remove_held_funds a (TransactionLog.transaction_id dt)).client_id
          = a.client_id
        rw [Account.remove_held_funds_client]

theorem chargeback_locked_true (a : Account) (d : Option TransactionLog) (a2 : Account)
    (h : ChargeBack.execute a d = some a2) (hl : a.locked = true) : a2.locked = true := by
  cases d with
  | none =>
    cases Option.some.inj h
    exact hl
  | some dt =>
    cases hfd : AccountInfo.find_dispute a (TransactionLog.transaction_id dt) with
    | Undisputed =>
      simp only [ChargeBack.execute, hfd] at h
      cases Option.some.inj h
      exact hl
    | Chargeback =>
      simp only [ChargeBack.execute, hfd] at h
      cases Option.some.inj h
      exact hl
    | Disputed amt =>
      simp only [ChargeBack.execute, hfd] at h
      split at h
      case isFalse => cases h
      case isTrue hc =>
        cases Option.some.inj h
        rfl

theorem chargeback_client_eq (a : Account) (d : Option TransactionLog) (a2 : Account)
    (h : ChargeBack.execute a d = some a2) : a2.client_id = a.client_id := by
  cases d with
  | none =>
    cases Option.some.inj h
    rfl
  | some dt =>
    cases hfd : AccountInfo.find_dispute a (TransactionLog.transaction_id dt) with
    | Undisputed =>
      simp only [ChargeBack.execute, hfd] at h
      cases Option.some.inj h
      rfl
    | Chargeback =>
      simp only [ChargeBack.execute, hfd] at h
      cases Option.some.inj h
      rfl
    | Disputed amt =>
      simp only [ChargeBack.execute, hfd] at h
      split at h
      case isFalse => cases h
      case isTrue hc =>
        cases Option.some.inj h
        show (Account.set_locked _ true).client_id = a.client_id
        rw [show ∀ x : Account, (Account.set_locked x true).client_id = x.client_id
          from fun x => rfl]
        rw [Account.complete_dispute_client, Account.remove_held_funds_client]

/-! ### Bank-level helper lemmas -/

theorem Bank.account_ledger (b : Bank) (c : Nat) :
    (Bank.account b c).1.ledger = b.ledger := by
  unfold Bank.account
  cases alGet b.accounts c <;> rfl

theorem Bank.account_snd_of_get (b : Bank) (c : Nat) (a : Account)
    (hg : alGet b.accounts c = some a) : (Bank.account b c).2 = a := by
  unfold Bank.account
  rw [hg]

theorem Bank.account_accounts_get (b : Bank) (c q : Nat) (a : Account)
    (hq : alGet b.accounts q = some a) :
    alGet (Bank.account b c).1.accounts q = some a := by
  unfold Bank.account
  cases hg : alGet b.accounts c with
  | some x => exact hq
  | none =>
    have hne : q ≠ c := by
      intro e
      rw [e, hg] at hq
      cases hq
    show alGet (alInsert b.accounts c (Account.new c)) q = some a
    rw [alGet_insert_ne _ _ _ _ hne]
    exact hq

theorem execute_ledger (b : Bank) (i : Nat) (t : TransactionLog) (b2 : Bank)
    (h : BankTransaction.execute b i t = some b2) : b2.ledger = b.ledger := by
  cases t with
  | Deposit c tx amt =>
    cases Option.some.inj h
    show (Bank.account b c).1.ledger = b.ledger
    exact Bank.account_ledger b c
  | Withdrawal c tx amt =>
    cases Option.some.inj h
    show (Bank.account b c).1.ledger = b.ledger
    exact Bank.account_ledger b c
  | Dispute c tx =>
    cases Option.some.inj h
    show (Bank.account b c).1.ledger = b.ledger
    exact Bank.account_ledger b c
  | Resolve c tx =>
    simp only [BankTransaction.execute] at h
    cases hr : Resolve.execute (Bank.account b c).2
        (Bank.transaction (Bank.account b c).1 i c tx) with
    | none => rw [hr] at h; cases h
    | some ar =>
      rw [hr] at h
      cases Option.some.inj h
      show (Bank.account b c).1.ledger = b.ledger
      exact Bank.account_ledger b c
  | Chargeback c tx =>
    simp only [BankTransaction.execute] at h
    cases hr : ChargeBack.execute (Bank.account b c).2
        (Bank.transaction (Bank.account b c).1 i c tx) with
    | none => rw [hr] at h; cases h
    | some ar =>
      rw [hr] at h
      cases Option.some.inj h
      show (Bank.account b c).1.ledger = b.ledger
      exact Bank.account_ledger b c

theorem deposit_of_locked_eq (a : Account) (amt : Int) (hl : a.locked = true) :
    Deposit.execute a amt = a := by
  unfold Deposit.execute
  rw [if_pos (show AccountInfo.locked a = true from hl)]

theorem withdrawal_of_locked_eq (a : Account) (amt : Int) (hl : a.locked = true) :
    Withdrawal.execute a amt = a := by
  unfold Withdrawal.execute
  rw [if_pos (show AccountInfo.locked a = true from hl)]

theorem locked_store_helper (b : Bank) (c : Nat) (ah : Account) (cid : Nat) (a : Account)
    (hget : alGet b.accounts cid = some a) (hl : a.locked = true)
    (hlock : (Bank.account b c).2.locked = true → ah.locked = true) :
    ∃ a2, alGet (bankStore (Bank.account b c).1 c ah).accounts cid = some a2
      ∧ a2.locked = true := by
  by_cases hc : cid = c
  · subst hc
    refine ⟨ah, ?_, ?_⟩
    · show alGet (alInsert (Bank.account b cid).1.accounts cid ah) cid = some ah
      exact alGet_insert_self _ _ _
    · apply hlock
      rw [Bank.account_snd_of_get b cid a hget]
      exact hl
  · refine ⟨a, ?_, hl⟩
    show alGet (alInsert (Bank.account b c).1.accounts c ah) cid = some a
    rw [alGet_insert_ne _ _ _ _ hc]
    exact Bank.account_accounts_get b c cid a hget

theorem execute_locked_mono (b : Bank) (i : Nat) (t : TransactionLog) (b2 : Bank)
    (h : BankTransaction.execute b i t = some b2) (cid : Nat) (a : Account)
    (hget : alGet b.accounts cid = some a) (hl : a.locked = true) :
    ∃ a2, alGet b2.accounts cid = some a2 ∧ a2.locked = true := by
  cases t with
  | Deposit c tx amt =>
    cases Option.some.inj h
    exact locked_store_helper b c _ cid a hget hl
      (fun hx => by rw [deposit_locked_eq]; exact hx)
  | Withdrawal c tx amt =>
    cases Option.some.inj h
    exact locked_store_helper b c _ cid a hget hl
      (fun hx => by rw [withdrawal_locked_eq]; exact hx)
  | Dispute c tx =>
    cases Option.some.inj h
    exact locked_store_helper b c _ cid a hget hl
      (fun hx => by rw [dispute_locked_eq]; exact hx)
  | Resolve c tx =>
    simp only [BankTransaction.execute] at h
    cases hr : Resolve.execute (Bank.account b c).2
        (Bank.transaction (Bank.account b c).1 i c tx) with
    | none => rw [hr] at h; cases h
    | some ar =>
      rw [hr] at h
      cases Option.some.inj h
      exact locked_store_helper b c ar cid a hget hl
        (fun hx => by rw [resolve_locked_eq _ _ _ hr]; exact hx)
  | Chargeback c tx =>
    simp only [BankTransaction.execute] at h
    cases hr : ChargeBack.execute (Bank.account b c).2
        (Bank.transaction (Bank.account b c).1 i c tx) with
    | none => rw [hr] at h; cases h
    | some ar =>
      rw [hr] at h
      cases Option.some.inj h
      exact locked_store_helper b c ar cid a hget hl
        (fun hx => chargeback_locked_true _ _ _ hr hx)

theorem runFrom_locked : ∀ (rest : List TransactionLog) (b : Bank) (i : Nat) (b2 : Bank),
    runFrom b i rest = some b2 → ∀ (cid : Nat) (a : Account),
    alGet b.accounts cid = some a → a.locked = true →
    ∃ a2, alGet b2.accounts cid = some a2 ∧ a2.locked = true := by
  intro rest
  induction rest with
  | nil =>
    intro b i b2 h cid a hget hl
    cases Option.some.inj h
    exact ⟨a, hget, hl⟩
  | cons t rest ih =>
    intro b i b2 h cid a hget hl
    simp only [runFrom] at h
    cases he : BankTransaction.execute b i t with
    | none => rw [he] at h; cases h
    | some bmid =>
      rw [he] at h
      rcases execute_locked_mono b i t bmid he cid a hget hl with ⟨am, hgm, hlm⟩
      exact ih bmid (i + 1) b2 h cid am hgm hlm

/-- Claim C6: once an account is locked (which only a successful chargeback does, and
nothing ever clears), replaying any remaining records keeps it locked, and every
Deposit or Withdrawal record for that client leaves its available funds unchanged. -/
theorem heath_C6 :
    (∀ (b : Bank) (i : Nat) (rest : List TransactionLog) (b2 : Bank) (cid : Nat)
      (a : Account),
      runFrom b i rest = some b2 → alGet b.accounts cid = some a → a.locked = true →
      ∃ a2, alGet b2.accounts cid = some a2 ∧ a2.locked = true)
    ∧ (∀ (b : Bank) (i : Nat) (t : TransactionLog) (b2 : Bank) (cid : Nat) (a : Account),
      BankTransaction.execute b i t = some b2 → alGet b.accounts cid = some a →
      a.locked = true →
      (∃ tx amt, t = TransactionLog.Deposit cid tx amt
        ∨ t = TransactionLog.Withdrawal cid tx amt) →
      ∃ a2, alGet b2.accounts cid = some a2 ∧ a2.locked = true
        ∧ AccountInfo.available_funds a2 = AccountInfo.available_funds a) := by
  constructor
  · intro b i rest b2 cid a h hget hl
    exact runFrom_locked rest b i b2 h cid a hget hl
  · rintro b i t b2 cid a h hget hl ⟨tx, amt, ht | ht⟩
    · subst ht
      cases Option.some.inj h
      refine ⟨a, ?_, hl, rfl⟩
      show alGet (alInsert (Bank.account b cid).1.accounts cid
        (Deposit.execute (Bank.account b cid).2 amt)) cid = some a
      rw [Bank.account_snd_of_get b cid a hget, deposit_of_locked_eq a amt hl]
      exact alGet_insert_self _ _ _
    · subst ht
      cases Option.some.inj h
      refine ⟨a, ?_, hl, rfl⟩
      show alGet (alInsert (Bank.account b cid).1.accounts cid
        (Withdrawal.execute (Bank.account b cid).2 amt)) cid = some a
      rw [Bank.account_snd_of_get b cid a hget, withdrawal_of_locked_eq a amt hl]
      exact alGet_insert_self _ _ _

theorem heath_C6_witness :
    (Account.mk 1 50000 [] [] 0 true).locked = true
    ∧ AccountInfo.available_funds (Account.mk 1 50000 [] [] 0 true) = 50000 := by
  rcases heath_C6.2 (Bank.mk [(1, Account.mk 1 50000 [] [] 0 true)] [])
      0 (.Deposit 1 9 10000) (Bank.mk [(1, Account.mk 1 50000 [] [] 0 true)] [])
      1 (Account.mk 1 50000 [] [] 0 true) (by decide) (by decide) (by decide)
      ⟨9, 10000, Or.inl rfl⟩ with ⟨a2, hget, hl, hav⟩
  have ha2 : a2 = Account.mk 1 50000 [] [] 0 true := by
    have hc : alGet (Bank.mk [(1, Account.mk 1 50000 [] [] 0 true)]
        ([] : List TransactionLog)).accounts 1
        = some (Account.mk 1 50000 [] [] 0 true) := by decide
    exact Option.some.inj (hget.symm.trans hc)
  rw [ha2] at hl
  exact ⟨hl, rfl⟩

/-! ### Bookkeeping well-formedness: the cache tracks the held map -/

theorem Account.new_wf (c : Nat) : Account.wf (Account.new c) := by
  constructor
  · simp [Account.new, heldSum]
  · intro p hp
    cases hp

theorem Account.remove_held_funds_wf (a : Account) (k : Nat) (hwf : Account.wf a) :
    Account.wf (Account.remove_held_funds a k) := by
  unfold Account.remove_held_funds
  cases hr : alGet a.held_funds k with
  | none => exact hwf
  | some v =>
    constructor
    · show a.held_funds_cache - v = heldSum (alRemove a.held_funds k)
      rw [heldSum_remove _ _ _ hr, hwf.1]
    · intro p hp
      exact hwf.2 p (mem_alRemove _ _ _ hp)

theorem deposit_execute_wf (a : Account) (amt : Int) (hwf : Account.wf a) :
    Account.wf (Deposit.execute a amt) := by
  unfold Deposit.execute
  split <;> exact hwf

theorem withdrawal_execute_wf (a : Account) (amt : Int) (hwf : Account.wf a) :
    Account.wf (Withdrawal.execute a amt) := by
  unfold Withdrawal.execute
  split
  · exact hwf
  · split <;> exact hwf

theorem dispute_execute_wf (a : Account) (d : Option TransactionLog)
    (hwf : Account.wf a)
    (hd : ∀ dt, d = some dt → 0 ≤ (TransactionLog.amount dt).getD 0) :
    Account.wf (Dispute.execute a d) := by
  cases d with
  | none => exact hwf
  | some dt =>
    cases hfd : AccountInfo.find_dispute a (TransactionLog.transaction_id dt) with
    | Disputed v => simp only [Dispute.execute, hfd]; exact hwf
    | Chargeback => simp only [Dispute.execute, hfd]; exact hwf
    | Undisputed =>
      cases hamt : TransactionLog.amount dt with
      | none => simp only [Dispute.execute, hfd, hamt]; exact hwf
      | some amt =>
        simp only [Dispute.execute, hfd, hamt]
        by_cases hc : amt ≤ AccountInfo.available_funds a
        · rw [if_pos hc]
          have hget := find_dispute_undisputed_get a _ hfd
          have hnn2 : 0 ≤ amt := by
            have hx := hd dt rfl
            rw [hamt] at hx
            exact hx
          constructor
          · show a.held_funds_cache + amt
              = heldSum (alInsert a.held_funds (TransactionLog.transaction_id dt) amt)
            rw [heldSum_insert _ _ _ hget, hwf.1]
          · intro p hp
            rcases mem_alInsert _ _ _ _ hp with hm | hm
            · exact hwf.2 p hm
            · rw [hm]
              exact hnn2
        · rw [if_neg hc]
          exact hwf

theorem resolve_execute_wf (a : Account) (d : Option TransactionLog) (a2 : Account)
    (h : Resolve.execute a d = some a2) (hwf : Account.wf a) : Account.wf a2 := by
  cases d with
  | none => cases Option.some.inj h; exact hwf
  | some dt =>
    cases hfd : AccountInfo.find_dispute a (TransactionLog.transaction_id dt) with
    | Undisputed =>
      simp only [Resolve.execute, hfd] at h
      cases Option.some.inj h
      exact hwf
    | Chargeback =>
      simp only [Resolve.execute, hfd] at h
      cases Option.some.inj h
      exact hwf
    | Disputed amt =>
      simp only [Resolve.execute, hfd] at h
      split at h
      case isFalse => cases h
      case isTrue hc =>
        cases Option.some.inj h
        exact Account.remove_held_funds_wf a (TransactionLog.transaction_id dt) hwf

theorem chargeback_execute_wf (a : Account) (d : Option TransactionLog) (a2 : Account)
    (h : ChargeBack.execute a d = some a2) (hwf : Account.wf a) : Account.wf a2 := by
  cases d with
  | none => cases Option.some.inj h; exact hwf
  | some dt =>
    cases hfd : AccountInfo.find_dispute a (TransactionLog.transaction_id dt) with
    | Undisputed =>
      simp only [ChargeBack.execute, hfd] at h
      cases Option.some.inj h
      exact hwf
    | Chargeback =>
      simp only [ChargeBack.execute, hfd] at h
      cases Option.some.inj h
      exact hwf
    | Disputed amt =>
      simp only [ChargeBack.execute, hfd] at h
      split at h
      case isFalse => cases h
      case isTrue hc =>
        cases Option.some.inj h
        exact Account.remove_held_funds_wf a (TransactionLog.transaction_id dt) hwf

theorem Bank.account_wf (b : Bank) (c : Nat) (hwf : Bank.wf b) :
    Bank.wf (Bank.account b c).1 ∧ Account.wf (Bank.account b c).2 := by
  unfold Bank.account
  cases hg : alGet b.accounts c with
  | some x => exact ⟨hwf, hwf _ (alGet_mem _ _ _ hg)⟩
  | none =>
    constructor
    · intro p hp
      rcases mem_alInsert _ _ _ _ hp with hm | hm
      · exact hwf p hm
      · rw [hm]
        exact Account.new_wf c
    · exact Account.new_wf c

theorem wf_store_helper (b : Bank) (c : Nat) (ah : Account)
    (hwfb : Bank.wf b) (hwfa : Account.wf ah) : Bank.wf (bankStore b c ah) := by
  intro p hp
  rcases mem_alInsert _ _ _ _ hp with hm | hm
  · exact hwfb p hm
  · rw [hm]
    exact hwfa

theorem Bank.transaction_mem (b : Bank) (i c tx : Nat) (r : TransactionLog)
    (h : Bank.transaction b i c tx = some r) : r ∈ b.ledger := by
  unfold Bank.transaction at h
  exact List.take_subset i b.ledger (List.mem_of_find?_eq_some h)

theorem execute_wf (b : Bank) (i : Nat) (t : TransactionLog) (b2 : Bank)
    (h : BankTransaction.execute b i t = some b2)
    (hwf : Bank.wf b) (hnn : NonNegLog b.ledger) : Bank.wf b2 := by
  cases t with
  | Deposit c tx amt =>
    cases Option.some.inj h
    rcases Bank.account_wf b c hwf with ⟨hwfB, hwfA⟩
    exact wf_store_helper _ c _ hwfB (deposit_execute_wf _ amt hwfA)
  | Withdrawal c tx amt =>
    cases Option.some.inj h
    rcases Bank.account_wf b c hwf with ⟨hwfB, hwfA⟩
    exact wf_store_helper _ c _ hwfB (withdrawal_execute_wf _ amt hwfA)
  | Dispute c tx =>
    cases Option.some.inj h
    rcases Bank.account_wf b c hwf with ⟨hwfB, hwfA⟩
    refine wf_store_helper _ c _ hwfB (dispute_execute_wf _ _ hwfA ?_)
    intro dt hdt
    have hmem := Bank.transaction_mem _ i c tx dt hdt
    rw [Bank.account_ledger] at hmem
    exact hnn dt hmem
  | Resolve c tx =>
    simp only [BankTransaction.execute] at h
    cases hr : Resolve.execute (Bank.account b c).2
        (Bank.transaction (Bank.account b c).1 i c tx) with
    | none => rw [hr] at h; cases h
    | some ar =>
      rw [hr] at h
      cases Option.some.inj h
      rcases Bank.account_wf b c hwf with ⟨hwfB, hwfA⟩
      exact wf_store_helper _ c _ hwfB (resolve_execute_wf _ _ _ hr hwfA)
  | Chargeback c tx =>
    simp only [BankTransaction.execute] at h
    cases hr : ChargeBack.execute (Bank.account b c).2
        (Bank.transaction (Bank.account b c).1 i c tx) with
    | none => rw [hr] at h; cases h
    | some ar =>
      rw [hr] at h
      cases Option.some.inj h
      rcases Bank.account_wf b c hwf with ⟨hwfB, hwfA⟩
      exact wf_store_helper _ c _ hwfB (chargeback_execute_wf _ _ _ hr hwfA)

theorem runFrom_wf : ∀ (rest : List TransactionLog) (b : Bank) (i : Nat) (b2 : Bank),
    runFrom b i rest = some b2 → Bank.wf b → NonNegLog b.ledger →
    Bank.wf b2 ∧ b2.ledger = b.ledger := by
  intro rest
  induction rest with
  | nil =>
    intro b i b2 h hwf hnn
    cases Option.some.inj h
    exact ⟨hwf, rfl⟩
  | cons t rest ih =>
    intro b i b2 h hwf hnn
    simp only [runFrom] at h
    cases he : BankTransaction.execute b i t with
    | none => rw [he] at h; cases h
    | some bmid =>
      rw [he] at h
      have hl := execute_ledger b i t bmid he
      have hwf2 := execute_wf b i t bmid he hwf hnn
      have hrec := ih bmid (i + 1) b2 h hwf2 (by rw [hl]; exact hnn)
      exact ⟨hrec.1, by rw [hrec.2, hl]⟩

/-- Claim C1 (amended): at every point of replay (after any prefix of the log has been
executed), every account of the table satisfies
`available_funds + held_funds = total_funds`; and, provided every amount in the log is
non-negative, `held_funds` is also non-negative.  (As stated, with `held_funds >= 0`
extended to logs containing negative amounts, the claim is false: see the
counterexample.) -/
theorem heath_C1 (L : List TransactionLog) (k : Nat) (b2 : Bank)
    (hnn : NonNegLog L)
    (h : runFrom (Bank.mk [] L) 0 (L.take k) = some b2) :
    ∀ p ∈ b2.accounts,
      AccountInfo.available_funds p.2 + AccountInfo.held_funds p.2
        = AccountInfo.total_funds p.2
      ∧ 0 ≤ AccountInfo.held_funds p.2 := by
  have hwf := (runFrom_wf (L.take k) (Bank.mk [] L) 0 b2 h
    (by intro p hp; cases hp) hnn).1
  intro p hp
  constructor
  · exact Int.add_comm _ _
  · show 0 ≤ p.2.held_funds_cache
    rw [(hwf p hp).1]
    exact heldSum_nonneg _ (hwf p hp).2

theorem heath_C1_witness :
    AccountInfo.available_funds (Account.mk 1 0 [(1, 50000)] [] 50000 false)
      + AccountInfo.held_funds (Account.mk 1 0 [(1, 50000)] [] 50000 false)
      = AccountInfo.total_funds (Account.mk 1 0 [(1, 50000)] [] 50000 false)
    ∧ 0 ≤ AccountInfo.held_funds (Account.mk 1 0 [(1, 50000)] [] 50000 false) :=
  heath_C1 [TransactionLog.Deposit 1 1 50000, TransactionLog.Dispute 1 1] 2
    (Bank.mk [(1, Account.mk 1 0 [(1, 50000)] [] 50000 false)]
      [TransactionLog.Deposit 1 1 50000, TransactionLog.Dispute 1 1])
    (by decide) (by decide)
    (1, Account.mk 1 0 [(1, 50000)] [] 50000 false) (by decide)

/-- Counterexample to claim C1 as stated: on the log
`[deposit client 1 tx 1 amount -5.0, dispute client 1 tx 1]` (amounts in 10^-4 units),
which the parser accepts, replay completes and leaves account 1 with observed
held funds -5.0 < 0. -/
theorem heath_C1_counterexample :
    runFrom (Bank.mk [] [TransactionLog.Deposit 1 1 (-50000), TransactionLog.Dispute 1 1])
        0 [TransactionLog.Deposit 1 1 (-50000), TransactionLog.Dispute 1 1]
      = some (Bank.mk [(1, Account.mk 1 0 [(1, -50000)] [] (-50000) false)]
          [TransactionLog.Deposit 1 1 (-50000), TransactionLog.Dispute 1 1])
    ∧ AccountInfo.held_funds (Account.mk 1 0 [(1, -50000)] [] (-50000) false) < 0 := by
  decide

/-- Claim C3, evaluated at the failing input: the parser-accepted log
`[deposit 1 1 -5.0, dispute 1 1, deposit 1 2 10.0, dispute 1 2, resolve 1 2]`
drives `Resolve::execute` into the `Disputed(amount)` branch with
`amount = 10.0 > held total = 5.0`, so the internal consistency assertion fires
(modelled as `none`), refuting "the assertion never fails on parser-accepted input". -/
theorem heath_C3_failing :
    runFrom (Bank.mk []
        [TransactionLog.Deposit 1 1 (-50000), TransactionLog.Dispute 1 1,
          TransactionLog.Deposit 1 2 100000, TransactionLog.Dispute 1 2,
          TransactionLog.Resolve 1 2]) 0
      [TransactionLog.Deposit 1 1 (-50000), TransactionLog.Dispute 1 1,
        TransactionLog.Deposit 1 2 100000, TransactionLog.Dispute 1 2,
        TransactionLog.Resolve 1 2]
      = none := by
  decide

/-! ### Table shape: unique keys, each account stored under its own client id -/

theorem mem_keys_alInsert {α : Type} (m : List (Nat × α)) (k : Nat) (v : α) (x : Nat)
    (hx : x ∈ (alInsert m k v).map Prod.fst) : x ∈ m.map Prod.fst ∨ x = k := by
  rcases List.mem_map.mp hx with ⟨p, hp, rfl⟩
  rcases mem_alInsert _ _ _ _ hp with hm | hm
  · exact Or.inl (List.mem_map_of_mem _ hm)
  · right
    rw [hm]

theorem nodup_keys_alInsert {α : Type} (m : List (Nat × α)) (k : Nat) (v : α)
    (h : (m.map Prod.fst).Nodup) : ((alInsert m k v).map Prod.fst).Nodup := by
  induction m with
  | nil => simp [alInsert]
  | cons p rest ih =>
    obtain ⟨k2, v2⟩ := p
    by_cases hk : k2 = k
    · subst hk
      simp only [alInsert, if_pos rfl, List.map]
      simpa using h
    · simp only [alInsert, if_neg hk, List.map]
      simp only [List.map] at h
      rcases List.nodup_cons.mp h with ⟨hnotin, hnd⟩
      refine List.nodup_cons.mpr ⟨?_, ih hnd⟩
      intro hmem
      rcases mem_keys_alInsert rest k v k2 hmem with hm | hm
      · exact hnotin hm
      · exact hk hm

theorem Bank.account_tablewf (b : Bank) (c : Nat) (ht : TableWf b) :
    TableWf (Bank.account b c).1 ∧ (Bank.account b c).2.client_id = c := by
  unfold Bank.account
  cases hg : alGet b.accounts c with
  | some x => exact ⟨ht, ht.2 _ (alGet_mem _ _ _ hg)⟩
  | none =>
    refine ⟨⟨nodup_keys_alInsert _ _ _ ht.1, ?_⟩, rfl⟩
    intro p hp
    rcases mem_alInsert _ _ _ _ hp with hm | hm
    · exact ht.2 p hm
    · rw [hm]
      rfl

theorem store_tablewf (b : Bank) (c : Nat) (ah : Account) (ht : TableWf b)
    (hc : ah.client_id = c) : TableWf (bankStore b c ah) := by
  constructor
  · exact nodup_keys_alInsert _ _ _ ht.1
  · intro p hp
    rcases mem_alInsert _ _ _ _ hp with hm | hm
    · exact ht.2 p hm
    · rw [hm]
      exact hc

theorem execute_tablewf (b : Bank) (i : Nat) (t : TransactionLog) (b2 : Bank)
    (h : BankTransaction.execute b i t = some b2) (ht : TableWf b) : TableWf b2 := by
  cases t with
  | Deposit c tx amt =>
    cases Option.some.inj h
    rcases Bank.account_tablewf b c ht with ⟨htB, hcA⟩
    refine store_tablewf _ c _ htB ?_
    rw [deposit_client_eq]
    exact hcA
  | Withdrawal c tx amt =>
    cases Option.some.inj h
    rcases Bank.account_tablewf b c ht with ⟨htB, hcA⟩
    refine store_tablewf _ c _ htB ?_
    rw [withdrawal_client_eq]
    exact hcA
  | Dispute c tx =>
    cases Option.some.inj h
    rcases Bank.account_tablewf b c ht with ⟨htB, hcA⟩
    refine store_tablewf _ c _ htB ?_
    rw [dispute_client_eq]
    exact hcA
  | Resolve c tx =>
    simp only [BankTransaction.execute] at h
    cases hr : Resolve.execute (Bank.account b c).2
        (Bank.transaction (Bank.account b c).1 i c tx) with
    | none => rw [hr] at h; cases h
    | some ar =>
      rw [hr] at h
      cases Option.some.inj h
      rcases Bank.account_tablewf b c ht with ⟨htB, hcA⟩
      refine store_tablewf _ c _ htB ?_
      rw [resolve_client_eq _ _ _ hr]
      exact hcA
  | Chargeback c tx =>
    simp only [BankTransaction.execute] at h
    cases hr : ChargeBack.execute (Bank.account b c).2
        (Bank.transaction (Bank.account b c).1 i c tx) with
    | none => rw [hr] at h; cases h
    | some ar =>
      rw [hr] at h
      cases Option.some.inj h
      rcases Bank.account_tablewf b c ht with ⟨htB, hcA⟩
      refine store_tablewf _ c _ htB ?_
      rw [chargeback_client_eq _ _ _ hr]
      exact hcA

theorem mem_keys_bank_account (b : Bank) (c : Nat) (x : Nat) :
    x ∈ (Bank.account b c).1.accounts.map Prod.fst →
    x ∈ b.accounts.map Prod.fst ∨ x = c := by
  unfold Bank.account
  cases hg : alGet b.accounts c with
  | some a => exact fun hx => Or.inl hx
  | none => exact fun hx => mem_keys_alInsert _ _ _ _ hx

theorem execute_keys (b : Bank) (i : Nat) (t : TransactionLog) (b2 : Bank)
    (h : BankTransaction.execute b i t = some b2) :
    ∀ x ∈ b2.accounts.map Prod.fst,
      x ∈ b.accounts.map Prod.fst ∨ x = TransactionLog.client_id t := by
  cases t with
  | Deposit c tx amt =>
    cases Option.some.inj h
    intro x hx
    rcases mem_keys_alInsert _ _ _ _ hx with hm | hm
    · exact mem_keys_bank_account b c x hm
    · exact Or.inr hm
  | Withdrawal c tx amt =>
    cases Option.some.inj h
    intro x hx
    rcases mem_keys_alInsert _ _ _ _ hx with hm | hm
    · exact mem_keys_bank_account b c x hm
    · exact Or.inr hm
  | Dispute c tx =>
    cases Option.some.inj h
    intro x hx
    rcases mem_keys_alInsert _ _ _ _ hx with hm | hm
    · exact mem_keys_bank_account b c x hm
    · exact Or.inr hm
  | Resolve c tx =>
    simp only [BankTransaction.execute] at h
    cases hr : Resolve.execute (Bank.account b c).2
        (Bank.transaction (Bank.account b c).1 i c tx) with
    | none => rw [hr] at h; cases h
    | some ar =>
      rw [hr] at h
      cases Option.some.inj h
      intro x hx
      rcases mem_keys_alInsert _ _ _ _ hx with hm | hm
      · exact mem_keys_bank_account b c x hm
      · exact Or.inr hm
  | Chargeback c tx =>
    simp only [BankTransaction.execute] at h
    cases hr : ChargeBack.execute (Bank.account b c).2
        (Bank.transaction (Bank.account b c).1 i c tx) with
    | none => rw [hr] at h; cases h
    | some ar =>
      rw [hr] at h
      cases Option.some.inj h
      intro x hx
      rcases mem_keys_alInsert _ _ _ _ hx with hm | hm
      · exact mem_keys_bank_account b c x hm
      · exact Or.inr hm

theorem runFrom_table : ∀ (rest : List TransactionLog) (b : Bank) (i : Nat) (b2 : Bank),
    runFrom b i rest = some b2 → TableWf b →
    TableWf b2 ∧ ∀ x ∈ b2.accounts.map Prod.fst,
      x ∈ b.accounts.map Prod.fst ∨ ∃ t ∈ rest, TransactionLog.client_id t = x := by
  intro rest
  induction rest with
  | nil =>
    intro b i b2 h ht
    cases Option.some.inj h
    exact ⟨ht, fun x hx => Or.inl hx⟩
  | cons t rest ih =>
    intro b i b2 h ht
    simp only [runFrom] at h
    cases he : BankTransaction.execute b i t with
    | none => rw [he] at h; cases h
    | some bmid =>
      rw [he] at h
      have ht2 := execute_tablewf b i t bmid he ht
      have hrec := ih bmid (i + 1) b2 h ht2
      refine ⟨hrec.1, ?_⟩
      intro x hx
      rcases hrec.2 x hx with hm | hm
      · rcases execute_keys b i t bmid he x hm with hm2 | hm2
        · exact Or.inl hm2
        · exact Or.inr ⟨t, List.mem_cons_self t rest, hm2.symm⟩
      · rcases hm with ⟨u, hu, hux⟩
        exact Or.inr ⟨u, List.mem_cons_of_mem t hu, hux⟩

/-! ### Sortedness of the snapshot rows -/

theorem insertRow_perm (r : AccountLog) (l : List AccountLog) :
    (insertRow r l).Perm (r :: l) := by
  induction l with
  | nil => exact List.Perm.refl _
  | cons x xs ih =>
    unfold insertRow
    by_cases hc : r.client_id ≤ x.client_id
    · rw [if_pos hc]
    · rw [if_neg hc]
      exact (ih.cons x).trans (List.Perm.swap r x xs)

theorem sortRows_perm (l : List AccountLog) : (sortRows l).Perm l := by
  induction l with
  | nil => exact List.Perm.refl _
  | cons r rs ih => exact (insertRow_perm r (sortRows rs)).trans (ih.cons r)

theorem insertRow_sorted (r : AccountLog) (l : List AccountLog)
    (h : l.Pairwise (fun x y : AccountLog => x.client_id ≤ y.client_id)) :
    (insertRow r l).Pairwise (fun x y : AccountLog => x.client_id ≤ y.client_id) := by
  induction l with
  | nil => simp [insertRow]
  | cons x xs ih =>
    unfold insertRow
    rcases List.pairwise_cons.mp h with ⟨hx1, hx2⟩
    by_cases hc : r.client_id ≤ x.client_id
    · rw [if_pos hc]
      refine List.pairwise_cons.mpr ⟨?_, h⟩
      intro y hy
      rcases List.mem_cons.mp hy with rfl | hy2
      · exact hc
      · exact le_trans hc (hx1 y hy2)
    · rw [if_neg hc]
      refine List.pairwise_cons.mpr ⟨?_, ih hx2⟩
      intro y hy
      have hy2 := (insertRow_perm r xs).mem_iff.mp hy
      rcases List.mem_cons.mp hy2 with rfl | hy3
      · exact le_of_lt (not_le.mp hc)
      · exact hx1 y hy3

theorem sortRows_sorted (l : List AccountLog) :
    (sortRows l).Pairwise (fun x y : AccountLog => x.client_id ≤ y.client_id) := by
  induction l with
  | nil => simp [sortRows]
  | cons r rs ih => exact insertRow_sorted r _ ih

theorem pairwise_lt_of_nodup (l : List AccountLog)
    (hs : l.Pairwise (fun x y : AccountLog => x.client_id ≤ y.client_id))
    (hn : (l.map AccountLog.client_id).Nodup) :
    l.Pairwise (fun x y : AccountLog => x.client_id < y.client_id) := by
  have hpn : l.Pairwise (fun x y : AccountLog => x.client_id ≠ y.client_id) :=
    List.pairwise_map.mp hn
  exact (hs.and hpn).imp (fun h => lt_of_le_of_ne h.1 h.2)

theorem runFrom_ledger : ∀ (rest : List TransactionLog) (b : Bank) (i : Nat) (b2 : Bank),
    runFrom b i rest = some b2 → b2.ledger = b.ledger := by
  intro rest
  induction rest with
  | nil =>
    intro b i b2 h
    cases Option.some.inj h
    rfl
  | cons t rest ih =>
    intro b i b2 h
    simp only [runFrom] at h
    cases he : BankTransaction.execute b i t with
    | none => rw [he] at h; cases h
    | some bmid =>
      rw [he] at h
      rw [ih bmid (i + 1) b2 h, execute_ledger b i t bmid he]

/-- Claim C8: the snapshot contains exactly the rows of the accounts present in the
table after the full replay (a permutation of one `to_csv` row per table entry), the
rows are strictly ascending in client id, and every row's client id was referenced by
some record of the log. -/
theorem heath_C8 (b : Bank) (rows : List AccountLog) (b2 : Bank)
    (h : Bank.ordered_accounts_balance_buffer b = some (rows, b2)) :
    ∃ bf, runFrom { b with accounts := [] } 0 b.ledger = some bf
      ∧ rows.Perm (bf.accounts.map (fun p => Account.to_csv p.2))
      ∧ rows.Pairwise (fun x y : AccountLog => x.client_id < y.client_id)
      ∧ (∀ r ∈ rows, ∃ t ∈ b.ledger, TransactionLog.client_id t = r.client_id) := by
  unfold Bank.ordered_accounts_balance_buffer at h
  cases hr : runFrom { b with accounts := [] } 0 b.ledger with
  | none => rw [hr] at h; cases h
  | some bf =>
    rw [hr] at h
    have hrows : sortRows (bf.accounts.map (fun p => Account.to_csv p.2)) = rows :=
      congrArg Prod.fst (Option.some.inj h)
    have htab := runFrom_table b.ledger { b with accounts := [] } 0 bf hr
      ⟨List.nodup_nil, fun p hp => absurd hp (List.not_mem_nil p)⟩
    have hmapeq : (bf.accounts.map (fun p => Account.to_csv p.2)).map AccountLog.client_id
        = bf.accounts.map Prod.fst := by
      rw [List.map_map]
      refine List.map_congr_left ?_
      intro p hp
      show (Account.to_csv p.2).client_id = p.1
      show p.2.client_id = p.1
      exact htab.1.2 p hp
    refine ⟨bf, rfl, ?_, ?_, ?_⟩
    · rw [← hrows]
      exact sortRows_perm _
    · rw [← hrows]
      refine pairwise_lt_of_nodup _ (sortRows_sorted _) ?_
      have hperm : ((sortRows (bf.accounts.map (fun p => Account.to_csv p.2))).map
          AccountLog.client_id).Perm
          ((bf.accounts.map (fun p => Account.to_csv p.2)).map AccountLog.client_id) :=
        (sortRows_perm _).map _
      refine hperm.nodup_iff.mpr ?_
      rw [hmapeq]
      exact htab.1.1
    · intro r hrmem
      rw [← hrows] at hrmem
      have hrsrc := (sortRows_perm _).mem_iff.mp hrmem
      rcases List.mem_map.mp hrsrc with ⟨p, hpmem, rfl⟩
      have hrc : (Account.to_csv p.2).client_id = p.1 := htab.1.2 p hpmem
      have hkey : p.1 ∈ bf.accounts.map Prod.fst := List.mem_map_of_mem _ hpmem
      rcases htab.2 p.1 hkey with hm | hm
      · cases hm
      · rcases hm with ⟨t, htmem, hteq⟩
        exact ⟨t, htmem, by rw [hteq, hrc]⟩

theorem heath_C8_witness :
    List.Perm [AccountLog.mk 1 10000 0 10000 false]
      ((Bank.mk [(1, Account.mk 1 10000 [] [] 0 false)]
        [TransactionLog.Deposit 1 1 10000]).accounts.map (fun p => Account.to_csv p.2))
    ∧ List.Pairwise (fun x y : AccountLog => x.client_id < y.client_id)
      [AccountLog.mk 1 10000 0 10000 false]
    ∧ TransactionLog.client_id (TransactionLog.Deposit 1 1 10000)
      = AccountLog.client_id (AccountLog.mk 1 10000 0 10000 false) := by
  rcases heath_C8 (Bank.mk [] [TransactionLog.Deposit 1 1 10000])
      [AccountLog.mk 1 10000 0 10000 false]
      (Bank.mk [] [TransactionLog.Deposit 1 1 10000]) (by decide)
    with ⟨bf, hrun, hperm, hpair, href⟩
  have hbf : bf = Bank.mk [(1, Account.mk 1 10000 [] [] 0 false)]
      [TransactionLog.Deposit 1 1 10000] := by
    have hc : runFrom (Bank.mk [] [TransactionLog.Deposit 1 1 10000]) 0
        [TransactionLog.Deposit 1 1 10000]
        = some (Bank.mk [(1, Account.mk 1 10000 [] [] 0 false)]
          [TransactionLog.Deposit 1 1 10000]) := by decide
    exact Option.some.inj (hrun.symm.trans hc)
  subst hbf
  refine ⟨hperm, hpair, ?_⟩
  rcases href (AccountLog.mk 1 10000 0 10000 false) (by decide)
    with ⟨u, hu, heq⟩
  have hu2 : u = TransactionLog.Deposit 1 1 10000 := by simpa using hu
  rw [← hu2]
  exact heq

theorem obb_eq_of_ledger (ba bb : Bank) (hl : ba.ledger = bb.ledger) :
    Bank.ordered_accounts_balance_buffer ba = Bank.ordered_accounts_balance_buffer bb := by
  unfold Bank.ordered_accounts_balance_buffer
  rw [hl]

/-- Claim C9: the snapshot operation is repeatable: a second call of
`ordered_accounts_balance_buffer` on the bank returned by the first call produces
exactly the same output (the table is emptied before each replay and the ledger is
re-read from the start on every iteration). -/
theorem heath_C9 (b : Bank) (out : List AccountLog) (b1 : Bank)
    (h : Bank.ordered_accounts_balance_buffer b = some (out, b1)) :
    Bank.ordered_accounts_balance_buffer b1 = some (out, b1) := by
  have hcopy := h
  unfold Bank.ordered_accounts_balance_buffer at hcopy
  cases hr : runFrom { b with accounts := [] } 0 b.ledger with
  | none => rw [hr] at hcopy; cases hcopy
  | some bf =>
    rw [hr] at hcopy
    have hfl := runFrom_ledger b.ledger { b with accounts := [] } 0 bf hr
    have hb1 : ({ bf with accounts := ([] : List (Nat × Account)) } : Bank) = b1 :=
      congrArg Prod.snd (Option.some.inj hcopy)
    have hb1l : b1.ledger = b.ledger := by
      rw [← hb1]
      exact hfl
    rw [obb_eq_of_ledger b1 b hb1l]
    exact h

theorem heath_C9_witness :
    Bank.ordered_accounts_balance_buffer (Bank.mk [] [TransactionLog.Deposit 1 1 10000])
      = some ([AccountLog.mk 1 10000 0 10000 false],
          Bank.mk [] [TransactionLog.Deposit 1 1 10000]) :=
  heath_C9 (Bank.mk [] [TransactionLog.Deposit 1 1 10000])
    [AccountLog.mk 1 10000 0 10000 false]
    (Bank.mk [] [TransactionLog.Deposit 1 1 10000]) (by decide)

theorem heath_C2_witness :
    Bank.transaction
        (Bank.mk [] [TransactionLog.Deposit 1 5 100, TransactionLog.Deposit 2 6 200]) 2 2 6
      = some (TransactionLog.Deposit 2 6 200) := by
  apply ((heath_C2
    (Bank.mk [] [TransactionLog.Deposit 1 5 100, TransactionLog.Deposit 2 6 200]) 2 2 6).1
    (TransactionLog.Deposit 2 6 200)).mpr
  refine ⟨rfl, rfl, 1, by omega, rfl, ?_⟩
  intro k hk s hs hmatch
  cases k with
  | zero =>
    have h0 : TransactionLog.Deposit 1 5 100 = s := Option.some.inj hs
    rw [← h0] at hmatch
    exact absurd hmatch.1 (by decide)
  | succ k2 => exact absurd hk (by omega)
